import Mathlib

/-!
# Verification of the EM-for-GMM estimation core

Shallow embedding of the EM algorithm of `GMM_2.5D_with_EM_visualized.ipynb`
(functions `initialize_parameters`, `expectation_step`, `maximization_step`,
`compute_aic`, `run_em_algorithm`).

Modelling choices:
* Scalars are exact rationals `ℚ` (the reference arithmetic; floating point
  is not modelled, except that Python's `float('inf')` initial value of
  `previous_aic` is modelled by `Option ℚ` with `none` standing for `+∞`:
  for every finite `c` and threshold `θ`, `inf - c < θ` is `False`, which
  is exactly the behaviour of the `none` branch below).
* `numpy` arrays are total functions from indices: a dataset is
  `ℕ → ℕ → ℚ` (point index, coordinate) together with its size `N` and
  dimensionality `D`; sums written in `numpy` become `Finset.range` sums.
* `scipy.stats.multivariate_normal(mu, cov).pdf` and `np.log` are external
  library primitives, so they are passed in as abstract function
  parameters `pdf : Pdf` and `log : ℚ → ℚ`; every statement that needs a
  property of the true density (e.g. positivity) takes it as a hypothesis.
* `np.random.rand` of the initializer is passed in as an abstract stream
  `rand : ℕ → ℕ → ℚ` of uniform draws.
-/

namespace GMM

/-- The type of the external density primitive
`multivariate_normal(mu_i, cov_i).pdf x`: it receives one component's mean
(`ℕ → ℚ`), that component's covariance matrix (`ℕ → ℕ → ℚ`) and one data
point (`ℕ → ℚ`), and yields a scalar. -/
abbrev Pdf : Type := (ℕ → ℚ) → (ℕ → ℕ → ℚ) → (ℕ → ℚ) → ℚ

/-- The unnormalized weight row sum `r.sum(axis=1)` used as the divisor of
the E-step's row normalization: `∑ j, pi[j] * pdf(mu[j], cov[j], x_n)`. -/
def rowSum (pdf : Pdf) (data : ℕ → ℕ → ℚ) (K : ℕ) (mu : ℕ → ℕ → ℚ)
    (cov : ℕ → ℕ → ℕ → ℚ) (pi : ℕ → ℚ) (n : ℕ) : ℚ :=
  ∑ j ∈ Finset.range K, pi j * pdf (mu j) (cov j) (data n)

/-- E-step, from the source:
```
r = np.array([pi[i] * multivariate_normal(mu[i], cov[i]).pdf(data)
              for i in range(len(pi))]).T
r /= r.sum(axis=1, keepdims=True)
m_c = r.sum(axis=0)
pi = m_c / m_c.sum()
return r, m_c, pi
```
The division `r /= r.sum(axis=1)` is performed unconditionally, with no
zero-divisor guard (exact-arithmetic model: `x / 0 = 0` in `ℚ`, where
`numpy` floats would yield `nan`). Returns `(r, m_c, pi')`. -/
def expectation_step (pdf : Pdf) (data : ℕ → ℕ → ℚ) (N K : ℕ)
    (mu : ℕ → ℕ → ℚ) (cov : ℕ → ℕ → ℕ → ℚ) (pi : ℕ → ℚ) :
    (ℕ → ℕ → ℚ) × (ℕ → ℚ) × (ℕ → ℚ) :=
  let r : ℕ → ℕ → ℚ := fun n i =>
    pi i * pdf (mu i) (cov i) (data n) / rowSum pdf data K mu cov pi n
  let m_c : ℕ → ℚ := fun i => ∑ n ∈ Finset.range N, r n i
  let pi' : ℕ → ℚ := fun i => m_c i / ∑ j ∈ Finset.range K, m_c j
  (r, m_c, pi')

/-- M-step, from the source:
```
mu = np.array([r[:, i].dot(data) / m_c[i] for i in range(len(m_c))])
cov = np.array([(np.dot((data - mu[i]).T,
                        (data - mu[i]) * r[:, i][:, np.newaxis]) / m_c[i])
                for i in range(len(m_c))])
return mu, cov
```
The `(a,b)` entry of `np.dot((X - mu).T, (X - mu) * r[:, i][:, None])` is
`∑ n, (x_n - mu_i)_a * ((x_n - mu_i)_b * r[n,i])`; note `mu i` inside `cov`
is the mean freshly computed on the line above. -/
def maximization_step (data : ℕ → ℕ → ℚ) (r : ℕ → ℕ → ℚ) (m_c : ℕ → ℚ)
    (N : ℕ) : (ℕ → ℕ → ℚ) × (ℕ → ℕ → ℕ → ℚ) :=
  let mu : ℕ → ℕ → ℚ := fun i d =>
    (∑ n ∈ Finset.range N, r n i * data n d) / m_c i
  let cov : ℕ → ℕ → ℕ → ℚ := fun i a b =>
    (∑ n ∈ Finset.range N,
      (data n a - mu i a) * ((data n b - mu i b) * r n i)) / m_c i
  (mu, cov)

/-- AIC scorer, from the source:
```
k = len(mu) * (len(mu[0]) + len(mu[0]) * (len(mu[0]) + 1) / 2 + 1)
likelihood = np.sum(np.log(np.sum([pi[i] * multivariate_normal(mu[i], cov[i]).pdf(data)
                                   for i in range(len(pi))], axis=0)))
aic = 2 * k - 2 * likelihood
```
Here `K`/`D` stand for `len(mu)`/`len(mu[0])` (the function-typed arrays do
not carry their shapes). Python's `/ 2` is true division, matching `ℚ`. -/
def compute_aic (log : ℚ → ℚ) (pdf : Pdf) (data : ℕ → ℕ → ℚ) (N K D : ℕ)
    (mu : ℕ → ℕ → ℚ) (cov : ℕ → ℕ → ℕ → ℚ) (pi : ℕ → ℚ) : ℚ :=
  let k : ℚ := (K : ℚ) * ((D : ℚ) + (D : ℚ) * ((D : ℚ) + 1) / 2 + 1)
  let likelihood : ℚ := ∑ n ∈ Finset.range N,
    log (∑ i ∈ Finset.range K, pi i * pdf (mu i) (cov i) (data n))
  2 * k - 2 * likelihood

/-- Spec formula: number of free parameters
`k = K·(D + D(D+1)/2 + 1)`. -/
def numFreeParams (K D : ℕ) : ℚ :=
  (K : ℚ) * ((D : ℚ) + (D : ℚ) * ((D : ℚ) + 1) / 2 + 1)

/-- Spec formula: data log-likelihood
`ln(L) = ∑ n, ln(∑ k, π_k · density(x_n; μ_k, Σ_k))`. -/
def logLikelihood (log : ℚ → ℚ) (pdf : Pdf) (data : ℕ → ℕ → ℚ) (N K : ℕ)
    (mu : ℕ → ℕ → ℚ) (cov : ℕ → ℕ → ℕ → ℚ) (pi : ℕ → ℚ) : ℚ :=
  ∑ n ∈ Finset.range N,
    log (∑ k ∈ Finset.range K, pi k * pdf (mu k) (cov k) (data n))

/-- Spec formula: weighted mean `μ_k' = (∑ n, r[n,k]·x_n) / m_c[k]`. -/
def weightedMean_spec (data : ℕ → ℕ → ℚ) (r : ℕ → ℕ → ℚ) (m_c : ℕ → ℚ)
    (N i d : ℕ) : ℚ :=
  (∑ n ∈ Finset.range N, r n i * data n d) / m_c i

/-- Spec formula: weighted covariance
`Σ_k' = (∑ n, r[n,k]·(x_n−μ')(x_n−μ')ᵀ) / m_c[k]`, parametrized by the mean
`mu'` it centers on (the spec demands the newly computed mean). -/
def weightedCov_spec (data : ℕ → ℕ → ℚ) (r : ℕ → ℕ → ℚ) (m_c : ℕ → ℚ)
    (N : ℕ) (mu' : ℕ → ℕ → ℚ) (i a b : ℕ) : ℚ :=
  (∑ n ∈ Finset.range N,
    r n i * ((data n a - mu' i a) * (data n b - mu' i b))) / m_c i

/-- `initialize_parameters`, from the source:
```
pis = [1 / num_components] * num_components
np.random.seed(seed)
mus = np.random.rand(num_components, 2) * 4 - 2
sigmas = np.array([np.eye(2) for _ in range(num_components)])
return pis, mus, sigmas
```
`K` is a Python `int`, so it ranges over `ℤ`. For `K = 0` the very first
line raises `ZeroDivisionError`; for `K < 0` the list multiplication yields
`[]` silently and then `np.random.rand(K, 2)` raises `ValueError`. The
dimensionality is hard-wired to `2` (there is no `D` parameter); the seeded
uniform stream is abstracted as `rand`. -/
def initParameters (K : ℤ) (rand : ℕ → ℕ → ℚ) :
    Except String ((ℕ → ℚ) × (ℕ → ℕ → ℚ) × (ℕ → ℕ → ℕ → ℚ)) :=
  if K = 0 then Except.error "ZeroDivisionError: division by zero"
  else if K < 0 then Except.error "ValueError: negative dimensions are not allowed"
  else Except.ok
    (fun _ => 1 / (K : ℚ),
     fun i d => rand i d * 4 - 2,
     fun _ a b => if a = b then 1 else 0)

/-- Mutable state of `run_em_algorithm`'s loop body; `iters` mirrors the
loop variable `it` (number of loop-body executions so far). -/
structure EmState where
  pi : ℕ → ℚ
  mu : ℕ → ℕ → ℚ
  cov : ℕ → ℕ → ℕ → ℚ
  previous_aic : Option ℚ
  no_improve_count : ℕ
  aic_list : List ℚ
  iters : ℕ

/-- Loop state on entry to `run_em_algorithm`'s `for` loop:
`previous_aic = float('inf')` (modelled `none`), `no_improve_count = 0`,
`aic_list = []`. -/
def initState (pi : ℕ → ℚ) (mu : ℕ → ℕ → ℚ) (cov : ℕ → ℕ → ℕ → ℚ) :
    EmState where
  pi := pi
  mu := mu
  cov := cov
  previous_aic := none
  no_improve_count := 0
  aic_list := []
  iters := 0

/-- The `current_aic` computed by one execution of the loop body of
`run_em_algorithm` from state `s`: E-step, then M-step, then
`compute_aic` on the freshly updated parameters. -/
def iterationAic (log : ℚ → ℚ) (pdf : Pdf) (data : ℕ → ℕ → ℚ) (N K D : ℕ)
    (s : EmState) : ℚ :=
  let e := expectation_step pdf data N K s.mu s.cov s.pi
  let m := maximization_step data e.1 e.2.1 N
  compute_aic log pdf data N K D m.1 m.2 e.2.2

/-- One execution of the loop body of `run_em_algorithm`:
```
r, m_c, pi = expectation_step(data, mu, cov, pi)
mu, cov = maximization_step(data, r, m_c)
current_aic = compute_aic(data, mu, cov, pi)
aic_list.append(current_aic)
if previous_aic - current_aic < threshold:
    no_improve_count += 1
    if no_improve_count >= 3:
        return aic_list
else:
    no_improve_count = 0
previous_aic = current_aic
```
The returned `Bool` is the early `return` (the `none` branch models
`previous_aic == inf`, for which `inf - current < threshold` is `False`).
The printing / plotting on `it % 10 == 0` is the external reporting hook
and has no effect on the state. In the early-return case Python never
reaches `previous_aic = current_aic`; the field values of the discarded
state are irrelevant there. -/
def em_iteration (log : ℚ → ℚ) (pdf : Pdf) (data : ℕ → ℕ → ℚ) (N K D : ℕ)
    (threshold : ℚ) (s : EmState) : EmState × Bool :=
  let e := expectation_step pdf data N K s.mu s.cov s.pi
  let m := maximization_step data e.1 e.2.1 N
  let current_aic := compute_aic log pdf data N K D m.1 m.2 e.2.2
  let l := s.aic_list ++ [current_aic]
  match s.previous_aic with
  | none =>
      (⟨e.2.2, m.1, m.2, some current_aic, 0, l, s.iters + 1⟩, false)
  | some p =>
      if p - current_aic < threshold then
        (⟨e.2.2, m.1, m.2, some current_aic, s.no_improve_count + 1, l,
          s.iters + 1⟩, decide (3 ≤ s.no_improve_count + 1))
      else
        (⟨e.2.2, m.1, m.2, some current_aic, 0, l, s.iters + 1⟩, false)

/-- The `for it in range(max_iter)` loop of `run_em_algorithm`, by
remaining-iteration count. The `Bool` of the result records whether the
early (converged) `return` fired; falling out of the loop (fuel `0`)
is the non-converged path. -/
def em_loop (log : ℚ → ℚ) (pdf : Pdf) (data : ℕ → ℕ → ℚ) (N K D : ℕ)
    (threshold : ℚ) : ℕ → EmState → EmState × Bool
  | 0, s => (s, false)
  | m + 1, s =>
      match em_iteration log pdf data N K D threshold s with
      | (s', true) => (s', true)
      | (s', false) => em_loop log pdf data N K D threshold m s'

/-- `run_em_algorithm(data, max_iter, pi, mu, cov, threshold)`: runs the
loop from the initial state and returns `aic_list` — both the early
`return aic_list` and the fall-through `return aic_list` return exactly
the trajectory, nothing else. -/
def run_em_algorithm (log : ℚ → ℚ) (pdf : Pdf) (data : ℕ → ℕ → ℚ)
    (N K D : ℕ) (max_iter : ℕ) (threshold : ℚ) (pi : ℕ → ℚ)
    (mu : ℕ → ℕ → ℚ) (cov : ℕ → ℕ → ℕ → ℚ) : List ℚ :=
  (em_loop log pdf data N K D threshold max_iter (initState pi mu cov)).1.aic_list

/-- Invariant carried by the convergence loop: the mixing weights of the
state are positive on the `K` live components and sum to `1`. -/
def piInv (K : ℕ) (s : EmState) : Prop :=
  (∀ k < K, 0 < s.pi k) ∧ (∑ k ∈ Finset.range K, s.pi k) = 1

/-- Counting invariant of the convergence loop: whenever `previous_aic` is
finite (one iteration has completed), the no-improvement counter is
strictly below the number of recorded AIC values. -/
def lenInv (s : EmState) : Prop :=
  ∀ p, s.previous_aic = some p → s.no_improve_count + 1 ≤ s.aic_list.length

section Helpers

variable (log : ℚ → ℚ) (pdf : Pdf) (data : ℕ → ℕ → ℚ) (N K D : ℕ)
variable (threshold : ℚ)

/-- Across one loop-body execution, the mixing weights of the resulting
state are exactly the E-step's output: neither the M-step nor the scorer
touches them. -/
theorem em_iteration_pi (s : EmState) :
    (em_iteration log pdf data N K D threshold s).1.pi =
      (expectation_step pdf data N K s.mu s.cov s.pi).2.2 := by
  obtain ⟨pi, mu, cov, prev, c, l, it⟩ := s
  cases prev with
  | none => rfl
  | some p =>
      simp only [em_iteration]
      split <;> rfl

/-- Across one loop-body execution, the means of the resulting state are
exactly `maximization_step`'s output on `(data, r, m_c)`. -/
theorem em_iteration_mu (s : EmState) :
    (em_iteration log pdf data N K D threshold s).1.mu =
      (maximization_step data
        (expectation_step pdf data N K s.mu s.cov s.pi).1
        (expectation_step pdf data N K s.mu s.cov s.pi).2.1 N).1 := by
  obtain ⟨pi, mu, cov, prev, c, l, it⟩ := s
  cases prev with
  | none => rfl
  | some p =>
      simp only [em_iteration]
      split <;> rfl

/-- Across one loop-body execution, the covariances of the resulting state
are exactly `maximization_step`'s output on `(data, r, m_c)`. -/
theorem em_iteration_cov (s : EmState) :
    (em_iteration log pdf data N K D threshold s).1.cov =
      (maximization_step data
        (expectation_step pdf data N K s.mu s.cov s.pi).1
        (expectation_step pdf data N K s.mu s.cov s.pi).2.1 N).2 := by
  obtain ⟨pi, mu, cov, prev, c, l, it⟩ := s
  cases prev with
  | none => rfl
  | some p =>
      simp only [em_iteration]
      split <;> rfl

/-- Each loop-body execution appends exactly one AIC value and advances the
iteration counter by one. -/
theorem em_iteration_len (s : EmState) :
    (em_iteration log pdf data N K D threshold s).1.aic_list.length =
        s.aic_list.length + 1 ∧
      (em_iteration log pdf data N K D threshold s).1.iters = s.iters + 1 := by
  obtain ⟨pi, mu, cov, prev, c, l, it⟩ := s
  cases prev with
  | none => simp [em_iteration]
  | some p =>
      simp only [em_iteration]
      split <;> simp

end Helpers

section Helpers2

variable (log : ℚ → ℚ) (pdf : Pdf) (data : ℕ → ℕ → ℚ) (N K D : ℕ)
variable (threshold : ℚ)

/-- The loop keeps `aic_list` and the iteration counter in lockstep: one
appended AIC value per executed iteration. -/
theorem em_loop_len (fuel : ℕ) :
    ∀ s : EmState, s.aic_list.length = s.iters →
      (em_loop log pdf data N K D threshold fuel s).1.aic_list.length =
        (em_loop log pdf data N K D threshold fuel s).1.iters := by
  induction fuel with
  | zero => intro s hs; exact hs
  | succ m ih =>
      intro s hs
      have hstep := em_iteration_len log pdf data N K D threshold s
      rcases hit : em_iteration log pdf data N K D threshold s with ⟨s', b⟩
      have h1 : s'.aic_list.length = s.aic_list.length + 1 := by
        rw [hit] at hstep
        exact hstep.1
      have h2 : s'.iters = s.iters + 1 := by
        rw [hit] at hstep
        exact hstep.2
      cases b with
      | true =>
          simp only [em_loop, hit]
          show s'.aic_list.length = s'.iters
          omega
      | false =>
          simp only [em_loop, hit]
          exact ih s' (by omega)

end Helpers2

/-- C7: for every dataset and parameter set with `K` components in `D`
dimensions, `compute_aic` returns `AIC = 2k − 2·ln(L)` with
`k = K·(D + D(D+1)/2 + 1)` free parameters and
`ln(L) = ∑ n, ln(∑ k, π_k · density(x_n; μ_k, Σ_k))`. -/
theorem C7_theorem (log : ℚ → ℚ) (pdf : Pdf) (data : ℕ → ℕ → ℚ)
    (N K D : ℕ) (mu : ℕ → ℕ → ℚ) (cov : ℕ → ℕ → ℕ → ℚ) (pi : ℕ → ℚ) :
    compute_aic log pdf data N K D mu cov pi =
      2 * numFreeParams K D - 2 * logLikelihood log pdf data N K mu cov pi :=
  rfl

/-- C10: the M-step neither reads nor modifies the mixing weights —
`maximization_step` consumes only the dataset, the responsibility matrix
and the effective counts (see its argument list), and inside one loop
iteration the state's mixing weights are exactly the E-step's output while
the means and covariances are exactly `maximization_step`'s output. -/
theorem C10_theorem (log : ℚ → ℚ) (pdf : Pdf) (data : ℕ → ℕ → ℚ)
    (N K D : ℕ) (threshold : ℚ) (s : EmState) :
    (em_iteration log pdf data N K D threshold s).1.pi =
        (expectation_step pdf data N K s.mu s.cov s.pi).2.2 ∧
      (em_iteration log pdf data N K D threshold s).1.mu =
        (maximization_step data
          (expectation_step pdf data N K s.mu s.cov s.pi).1
          (expectation_step pdf data N K s.mu s.cov s.pi).2.1 N).1 ∧
      (em_iteration log pdf data N K D threshold s).1.cov =
        (maximization_step data
          (expectation_step pdf data N K s.mu s.cov s.pi).1
          (expectation_step pdf data N K s.mu s.cov s.pi).2.1 N).2 :=
  ⟨em_iteration_pi log pdf data N K D threshold s,
   em_iteration_mu log pdf data N K D threshold s,
   em_iteration_cov log pdf data N K D threshold s⟩

/-- C2 (amended): the E-step's row normalization is performed
unconditionally, `r[n,i] = w[n,i] / ∑_j w[n,j]`, with no epsilon floor and
no zero-divisor guard; when a point's row sum is zero, the division is
performed with the zero divisor anyway (in the exact model the row becomes
all zeros; `numpy` floats would produce `nan`). -/
theorem C2_theorem (pdf : Pdf) (data : ℕ → ℕ → ℚ) (N K : ℕ)
    (mu : ℕ → ℕ → ℚ) (cov : ℕ → ℕ → ℕ → ℚ) (pi : ℕ → ℚ) (n i : ℕ) :
    (expectation_step pdf data N K mu cov pi).1 n i =
        pi i * pdf (mu i) (cov i) (data n) / rowSum pdf data K mu cov pi n ∧
      (rowSum pdf data K mu cov pi n = 0 →
        (expectation_step pdf data N K mu cov pi).1 n i = 0) :=
  ⟨rfl, fun h => by simp [expectation_step, h]⟩

/-- C2 witness: at an input whose densities are all zero, the hypothesis
of the zero-row clause holds and the responsibility row is zero. -/
theorem C2_witness :
    rowSum (fun _ _ _ => 0) (fun _ _ => 0) 2 (fun _ _ => 0) (fun _ _ _ => 0)
        (fun _ => 1 / 2) 0 = 0 ∧
      (expectation_step (fun _ _ _ => 0) (fun _ _ => 0) 1 2 (fun _ _ => 0)
        (fun _ _ _ => 0) (fun _ => 1 / 2)).1 0 0 = 0 := by
  have h : rowSum (fun _ _ _ => 0) (fun _ _ => 0) 2 (fun _ _ => 0)
      (fun _ _ _ => 0) (fun _ => 1 / 2) 0 = 0 := by
    simp [rowSum]
  exact ⟨h, (C2_theorem (fun _ _ _ => 0) (fun _ _ => 0) 1 2 (fun _ _ => 0)
    (fun _ _ _ => 0) (fun _ => 1 / 2) 0 0).2 h⟩

/-- C2 counterexample: a concrete point whose unnormalized weights are all
exactly zero (`w[0,0] = w[0,1] = 0`, so the row-sum divisor is `0`). The
claim says the E-step substitutes a tiny positive floor for this row and
never divides by the zero row sum; the code divides by the zero row sum
anyway and the row it produces is identically zero — no floor value
appears. -/
theorem C2_counterexample :
    ((fun _ => 1 / 3 : ℕ → ℚ) 0 *
          (fun _ _ _ => 0 : Pdf) ((fun _ _ => 0) 0) ((fun _ _ _ => 0) 0)
            ((fun _ _ => 5) 0) = 0) ∧
      rowSum (fun _ _ _ => 0) (fun _ _ => 5) 2 (fun _ _ => 0)
          (fun _ _ _ => 0) (fun _ => 1 / 3) 0 = 0 ∧
      (expectation_step (fun _ _ _ => 0) (fun _ _ => 5) 1 2 (fun _ _ => 0)
          (fun _ _ _ => 0) (fun _ => 1 / 3)).1 0 0 = 0 ∧
      (expectation_step (fun _ _ _ => 0) (fun _ _ => 5) 1 2 (fun _ _ => 0)
          (fun _ _ _ => 0) (fun _ => 1 / 3)).1 0 1 = 0 := by
  refine ⟨by norm_num, by simp [rowSum], ?_, ?_⟩ <;>
    simp [expectation_step, rowSum]

/-- C6: for a component `i` with nonzero effective count, the M-step
returns the spec's weighted mean, and its covariance equals the spec's
weighted covariance centered on the newly computed mean
`(maximization_step data r m_c N).1`. -/
theorem C6_theorem (data : ℕ → ℕ → ℚ) (r : ℕ → ℕ → ℚ) (m_c : ℕ → ℚ)
    (N i d a b : ℕ) (_h : m_c i ≠ 0) :
    (maximization_step data r m_c N).1 i d =
        weightedMean_spec data r m_c N i d ∧
      (maximization_step data r m_c N).2 i a b =
        weightedCov_spec data r m_c N (maximization_step data r m_c N).1
          i a b := by
  refine ⟨rfl, ?_⟩
  unfold maximization_step weightedCov_spec
  simp only
  congr 1
  apply Finset.sum_congr rfl
  intro n _
  ring

/-- C6 witness: a concrete instance with `m_c 0 = 1 ≠ 0`. -/
theorem C6_witness :
    ((1 : ℚ) ≠ 0) ∧
      ((maximization_step (fun n d => (n : ℚ) + d) (fun _ _ => 1)
          (fun _ => 1) 2).1 0 0 =
        weightedMean_spec (fun n d => (n : ℚ) + d) (fun _ _ => 1)
          (fun _ => 1) 2 0 0 ∧
      (maximization_step (fun n d => (n : ℚ) + d) (fun _ _ => 1)
          (fun _ => 1) 2).2 0 0 1 =
        weightedCov_spec (fun n d => (n : ℚ) + d) (fun _ _ => 1)
          (fun _ => 1) 2
          (maximization_step (fun n d => (n : ℚ) + d) (fun _ _ => 1)
            (fun _ => 1) 2).1 0 0 1) :=
  ⟨one_ne_zero,
   C6_theorem (fun n d => (n : ℚ) + d) (fun _ _ => 1) (fun _ => 1)
     2 0 0 0 1 one_ne_zero⟩

/-- C5: when every point's unnormalized weight row sum is nonzero, the
mixing weights returned by the E-step are the effective counts divided by
the dataset size: `π'[i] = m_c[i] / N` (the code divides by
`m_c.sum()`, which under this hypothesis equals `N` because every
row-normalized responsibility row sums to `1`). -/
theorem C5_theorem (pdf : Pdf) (data : ℕ → ℕ → ℚ) (N K : ℕ)
    (mu : ℕ → ℕ → ℚ) (cov : ℕ → ℕ → ℕ → ℚ) (pi : ℕ → ℚ)
    (h : ∀ n < N, rowSum pdf data K mu cov pi n ≠ 0) (i : ℕ) :
    (expectation_step pdf data N K mu cov pi).2.2 i =
      (expectation_step pdf data N K mu cov pi).2.1 i / (N : ℚ) := by
  have key : (∑ j ∈ Finset.range K,
      (expectation_step pdf data N K mu cov pi).2.1 j) = (N : ℚ) := by
    show (∑ j ∈ Finset.range K, ∑ n ∈ Finset.range N,
      pi j * pdf (mu j) (cov j) (data n) /
        rowSum pdf data K mu cov pi n) = (N : ℚ)
    rw [Finset.sum_comm]
    have h1 : ∀ n ∈ Finset.range N,
        (∑ j ∈ Finset.range K,
          pi j * pdf (mu j) (cov j) (data n) /
            rowSum pdf data K mu cov pi n) = 1 := by
      intro n hn
      rw [← Finset.sum_div]
      exact div_self (h n (Finset.mem_range.mp hn))
    rw [Finset.sum_congr rfl h1]
    simp
  show (expectation_step pdf data N K mu cov pi).2.1 i /
      (∑ j ∈ Finset.range K, (expectation_step pdf data N K mu cov pi).2.1 j) =
    (expectation_step pdf data N K mu cov pi).2.1 i / (N : ℚ)
  rw [key]

/-- C5 witness: a one-point, one-component instance whose row sum is `1`. -/
theorem C5_witness :
    (∀ n < 1, rowSum (fun _ _ _ => 1) (fun _ _ => 0) 1 (fun _ _ => 0)
        (fun _ _ _ => 0) (fun _ => 1) n ≠ 0) ∧
      (expectation_step (fun _ _ _ => 1) (fun _ _ => 0) 1 1 (fun _ _ => 0)
          (fun _ _ _ => 0) (fun _ => 1)).2.2 0 =
        (expectation_step (fun _ _ _ => 1) (fun _ _ => 0) 1 1 (fun _ _ => 0)
          (fun _ _ _ => 0) (fun _ => 1)).2.1 0 / ((1 : ℕ) : ℚ) := by
  have h : ∀ n < 1, rowSum (fun _ _ _ => 1) (fun _ _ => 0) 1 (fun _ _ => 0)
      (fun _ _ _ => 0) (fun _ => 1) n ≠ 0 := by
    intro n _
    simp [rowSum]
  exact ⟨h, C5_theorem (fun _ _ _ => 1) (fun _ _ => 0) 1 1 (fun _ _ => 0)
    (fun _ _ _ => 0) (fun _ => 1) h 0⟩

/-- C1 (amended): every terminating run returns the full `AicTrajectory`
with exactly one entry per executed iteration — and nothing else; the
final `MixtureParameters` live only in the internal loop state and are not
part of the return value. -/
theorem C1_theorem (log : ℚ → ℚ) (pdf : Pdf) (data : ℕ → ℕ → ℚ)
    (N K D max_iter : ℕ) (threshold : ℚ) (pi : ℕ → ℚ)
    (mu : ℕ → ℕ → ℚ) (cov : ℕ → ℕ → ℕ → ℚ) :
    run_em_algorithm log pdf data N K D max_iter threshold pi mu cov =
        (em_loop log pdf data N K D threshold max_iter
          (initState pi mu cov)).1.aic_list ∧
      (run_em_algorithm log pdf data N K D max_iter threshold pi mu cov).length =
        (em_loop log pdf data N K D threshold max_iter
          (initState pi mu cov)).1.iters :=
  ⟨rfl,
   em_loop_len log pdf data N K D threshold max_iter (initState pi mu cov) rfl⟩

/-- C1 counterexample: the claim says the fit returns the final
`MixtureParameters` together with the trajectory. Two runs on different
datasets (all-zero points vs. all-one points, constant density) produce
the same return value even though their final means differ (`0` vs. `1`),
so the return value of `run_em_algorithm` cannot contain the final
parameters — the code returns `aic_list` alone. -/
theorem C1_counterexample :
    run_em_algorithm (fun _ => 0) (fun _ _ _ => 1) (fun _ _ => 0) 1 1 2 1 1
        (fun _ => 1) (fun _ _ => 0) (fun _ _ _ => 0) =
      run_em_algorithm (fun _ => 0) (fun _ _ _ => 1) (fun _ _ => 1) 1 1 2 1 1
        (fun _ => 1) (fun _ _ => 0) (fun _ _ _ => 0) ∧
    (em_loop (fun _ => 0) (fun _ _ _ => 1) (fun _ _ => 0) 1 1 2 1 1
        (initState (fun _ => 1) (fun _ _ => 0) (fun _ _ _ => 0))).1.mu 0 0 ≠
      (em_loop (fun _ => 0) (fun _ _ _ => 1) (fun _ _ => 1) 1 1 2 1 1
        (initState (fun _ => 1) (fun _ _ => 0) (fun _ _ _ => 0))).1.mu 0 0 := by
  constructor <;>
    norm_num [run_em_algorithm, em_loop, em_iteration, expectation_step,
      maximization_step, compute_aic, rowSum, initState, Finset.sum_range_succ]

/-- C3 (amended): there is no configuration validation. The initializer
fails for `K < 1` only by raising (`ZeroDivisionError` at `1 / K` for
`K = 0`, `ValueError` inside the RNG call for `K < 0`) and has no `D`
parameter at all (the dimensionality is hard-wired to `2`); `max_iter < 1`
is accepted and yields a normal return with the empty trajectory, and any
`threshold` — including `threshold ≤ 0` — is accepted, the first
iteration running unconditionally. -/
theorem C3_theorem :
    (∀ (K : ℤ) (rand : ℕ → ℕ → ℚ),
      (∃ e, initParameters K rand = Except.error e) ↔ K < 1) ∧
    (∀ (log : ℚ → ℚ) (pdf : Pdf) (data : ℕ → ℕ → ℚ) (N K D : ℕ)
        (threshold : ℚ) (pi : ℕ → ℚ) (mu : ℕ → ℕ → ℚ) (cov : ℕ → ℕ → ℕ → ℚ),
      run_em_algorithm log pdf data N K D 0 threshold pi mu cov = []) ∧
    (∀ (log : ℚ → ℚ) (pdf : Pdf) (data : ℕ → ℕ → ℚ) (N K D : ℕ)
        (threshold : ℚ) (pi : ℕ → ℚ) (mu : ℕ → ℕ → ℚ) (cov : ℕ → ℕ → ℕ → ℚ),
      run_em_algorithm log pdf data N K D 1 threshold pi mu cov =
        [iterationAic log pdf data N K D (initState pi mu cov)]) := by
  refine ⟨?_, fun _ _ _ _ _ _ _ _ _ _ => rfl, fun _ _ _ _ _ _ _ _ _ _ => rfl⟩
  intro K rand
  constructor
  · rintro ⟨e, he⟩
    by_contra hK
    have h0 : ¬K = 0 := by omega
    have hneg : ¬K < 0 := by omega
    simp [initParameters, h0, hneg] at he
  · intro hK
    rcases eq_or_ne K 0 with h0 | h0
    · exact ⟨"ZeroDivisionError: division by zero",
        by simp [initParameters, h0]⟩
    · have hneg : K < 0 := by omega
      exact ⟨"ValueError: negative dimensions are not allowed",
        by simp [initParameters, h0, hneg]⟩

/-- C3 counterexample: the claim says an invalid configuration is rejected
before any iteration runs. With `max_iter = 0` (invalid) the run returns
normally with the empty trajectory instead of being rejected, and with
`threshold = -1 ≤ 0` (invalid) a full iteration executes and its AIC is
recorded — no rejection happens in either case. -/
theorem C3_counterexample :
    run_em_algorithm (fun _ => 0) (fun _ _ _ => 1) (fun _ _ => 0) 1 1 2 0 1
        (fun _ => 1) (fun _ _ => 0) (fun _ _ _ => 0) = [] ∧
      (run_em_algorithm (fun _ => 0) (fun _ _ _ => 1) (fun _ _ => 0) 1 1 2 1
        (-1) (fun _ => 1) (fun _ _ => 0) (fun _ _ _ => 0)).length = 1 :=
  ⟨rfl, rfl⟩

/-- C4: with `previous_aic` starting as `none` (the model of the
`float('inf')` initialization, before iteration 0):
a loop-body execution on a state with infinite `previous_aic` never fires
the early stop and resets the counter (so the first iteration never stops
early); on a state with finite `previous_aic = p` and counter `c < 3`, if
`Δ = p − current < θ` the counter becomes `c + 1` and the body stops
exactly when the counter reaches the patience `3`, while if `Δ ≥ θ` the
counter resets to `0` and no stop fires. -/
theorem C4_theorem (log : ℚ → ℚ) (pdf : Pdf) (data : ℕ → ℕ → ℚ)
    (N K D : ℕ) (threshold : ℚ) (s : EmState) (p : ℚ) (c : ℕ)
    (pi : ℕ → ℚ) (mu : ℕ → ℕ → ℚ) (cov : ℕ → ℕ → ℕ → ℚ) :
    (initState pi mu cov).previous_aic = none ∧
    ((em_iteration log pdf data N K D threshold
        { s with previous_aic := none }).2 = false ∧
      (em_iteration log pdf data N K D threshold
        { s with previous_aic := none }).1.no_improve_count = 0) ∧
    (c < 3 →
      (p - iterationAic log pdf data N K D
          { s with previous_aic := some p, no_improve_count := c } <
            threshold →
        (em_iteration log pdf data N K D threshold
          { s with
            previous_aic := some p
            no_improve_count := c }).1.no_improve_count = c + 1 ∧
        ((em_iteration log pdf data N K D threshold
            { s with previous_aic := some p, no_improve_count := c }).2 =
              true ↔ c + 1 = 3)) ∧
      (threshold ≤ p - iterationAic log pdf data N K D
          { s with previous_aic := some p, no_improve_count := c } →
        (em_iteration log pdf data N K D threshold
          { s with
            previous_aic := some p
            no_improve_count := c }).1.no_improve_count = 0 ∧
        (em_iteration log pdf data N K D threshold
          { s with previous_aic := some p, no_improve_count := c }).2 =
            false)) := by
  refine ⟨rfl, ⟨rfl, rfl⟩, fun hc => ⟨fun hlt => ?_, fun hge => ?_⟩⟩
  · simp only [em_iteration]
    split
    · refine ⟨rfl, ?_⟩
      simp only [decide_eq_true_eq]
      omega
    · exact absurd hlt (by assumption)
  · simp only [em_iteration]
    split
    · exact absurd (by assumption) (not_lt.mpr hge)
    · exact ⟨rfl, rfl⟩

/-- C4 witness: a concrete state with finite previous AIC `12`, counter
`2` and threshold `1`; the constant-density instance has current AIC `12`,
so `Δ = 0 < 1`, the counter becomes `3` and the early stop fires. -/
theorem C4_witness :
    (em_iteration (fun _ => 0) (fun _ _ _ => 1) (fun _ _ => 0) 1 1 2 1
        { initState (fun _ => 1) (fun _ _ => 0) (fun _ _ _ => 0) with
          previous_aic := some 12
          no_improve_count := 2 }).1.no_improve_count = 2 + 1 ∧
      ((em_iteration (fun _ => 0) (fun _ _ _ => 1) (fun _ _ => 0) 1 1 2 1
          { initState (fun _ => 1) (fun _ _ => 0) (fun _ _ _ => 0) with
            previous_aic := some 12
            no_improve_count := 2 }).2 = true ↔
        2 + 1 = 3) :=
  ((C4_theorem (fun _ => 0) (fun _ _ _ => 1) (fun _ _ => 0) 1 1 2 1
      (initState (fun _ => 1) (fun _ _ => 0) (fun _ _ _ => 0)) 12 2
      (fun _ => 1) (fun _ _ => 0) (fun _ _ _ => 0)).2.2 (by omega)).1
    (by norm_num [iterationAic, expectation_step, maximization_step,
      compute_aic, rowSum, initState, Finset.sum_range_succ])

section SumOne

variable (log : ℚ → ℚ) (pdf : Pdf) (data : ℕ → ℕ → ℚ) (N K D : ℕ)
variable (threshold : ℚ)

/-- If all densities are positive, the dataset is nonempty and the current
mixing weights are positive on the `K` components, then the E-step's
refreshed mixing weights are again positive and sum to `1`. -/
theorem estep_pi_sum_one (mu : ℕ → ℕ → ℚ) (cov : ℕ → ℕ → ℕ → ℚ)
    (pi : ℕ → ℚ) (hpdf : ∀ m c x, 0 < pdf m c x) (hK : 1 ≤ K) (hN : 1 ≤ N)
    (hpi : ∀ k < K, 0 < pi k) :
    (∀ k < K, 0 < (expectation_step pdf data N K mu cov pi).2.2 k) ∧
      (∑ k ∈ Finset.range K,
        (expectation_step pdf data N K mu cov pi).2.2 k) = 1 := by
  have hS : ∀ n, 0 < rowSum pdf data K mu cov pi n := by
    intro n
    apply Finset.sum_pos
    · intro j hj
      exact mul_pos (hpi j (Finset.mem_range.mp hj)) (hpdf _ _ _)
    · exact Finset.nonempty_range_iff.mpr (by omega)
  have hmc : ∀ k < K, 0 < (expectation_step pdf data N K mu cov pi).2.1 k := by
    intro k hk
    show 0 < ∑ n ∈ Finset.range N,
      pi k * pdf (mu k) (cov k) (data n) / rowSum pdf data K mu cov pi n
    apply Finset.sum_pos
    · intro n _
      exact div_pos (mul_pos (hpi k hk) (hpdf _ _ _)) (hS n)
    · exact Finset.nonempty_range_iff.mpr (by omega)
  have hT : 0 < ∑ j ∈ Finset.range K,
      (expectation_step pdf data N K mu cov pi).2.1 j :=
    Finset.sum_pos (fun j hj => hmc j (Finset.mem_range.mp hj))
      (Finset.nonempty_range_iff.mpr (by omega))
  constructor
  · intro k hk
    show 0 < (expectation_step pdf data N K mu cov pi).2.1 k /
      ∑ j ∈ Finset.range K, (expectation_step pdf data N K mu cov pi).2.1 j
    exact div_pos (hmc k hk) hT
  · show (∑ k ∈ Finset.range K,
      (expectation_step pdf data N K mu cov pi).2.1 k /
        ∑ j ∈ Finset.range K,
          (expectation_step pdf data N K mu cov pi).2.1 j) = 1
    rw [← Finset.sum_div]
    exact div_self (ne_of_gt hT)

/-- One loop-body execution preserves the `piInv` invariant. -/
theorem piInv_iteration (s : EmState) (hpdf : ∀ m c x, 0 < pdf m c x)
    (hK : 1 ≤ K) (hN : 1 ≤ N) (hs : piInv K s) :
    piInv K (em_iteration log pdf data N K D threshold s).1 := by
  have h := estep_pi_sum_one pdf data N K s.mu s.cov s.pi hpdf hK hN hs.1
  constructor
  · intro k hk
    rw [em_iteration_pi]
    exact h.1 k hk
  · have hpi := em_iteration_pi log pdf data N K D threshold s
    calc (∑ k ∈ Finset.range K,
        (em_iteration log pdf data N K D threshold s).1.pi k)
        = ∑ k ∈ Finset.range K,
            (expectation_step pdf data N K s.mu s.cov s.pi).2.2 k := by
          rw [hpi]
      _ = 1 := h.2

/-- The whole loop preserves the `piInv` invariant. -/
theorem piInv_loop (hpdf : ∀ m c x, 0 < pdf m c x) (hK : 1 ≤ K)
    (hN : 1 ≤ N) (fuel : ℕ) :
    ∀ s : EmState, piInv K s →
      piInv K (em_loop log pdf data N K D threshold fuel s).1 := by
  induction fuel with
  | zero => intro s hs; exact hs
  | succ m ih =>
      intro s hs
      have hstep := piInv_iteration log pdf data N K D threshold s hpdf hK hN hs
      rcases hit : em_iteration log pdf data N K D threshold s with ⟨s', b⟩
      rw [hit] at hstep
      cases b with
      | true =>
          simp only [em_loop, hit]
          exact hstep
      | false =>
          simp only [em_loop, hit]
          exact ih s' hstep

end SumOne

/-- C8: for a valid configuration (`K ≥ 1` components, nonempty dataset,
strictly positive densities), the uniform initial mixing weights
`π_k = 1/K` delivered by the initializer sum to `1`, and after any number
of loop iterations starting from those weights the state's mixing weights
still sum to `1` — the E-step update preserves the invariant exactly (no
floating-point tolerance is needed in the rational model). -/
theorem C8_theorem (log : ℚ → ℚ) (pdf : Pdf) (data : ℕ → ℕ → ℚ)
    (N K D : ℕ) (threshold : ℚ) (hpdf : ∀ m c x, 0 < pdf m c x)
    (hK : 1 ≤ K) (hN : 1 ≤ N) :
    (∀ (rand : ℕ → ℕ → ℚ) p m s,
      initParameters (K : ℤ) rand = Except.ok (p, m, s) →
        (∀ k, p k = 1 / (K : ℚ)) ∧ (∑ k ∈ Finset.range K, p k) = 1) ∧
    (∀ (mu : ℕ → ℕ → ℚ) (cov : ℕ → ℕ → ℕ → ℚ) (fuel : ℕ),
      (∑ k ∈ Finset.range K,
        (em_loop log pdf data N K D threshold fuel
          (initState (fun _ => 1 / (K : ℚ)) mu cov)).1.pi k) = 1) := by
  have hKQ : ((K : ℕ) : ℚ) ≠ 0 := by
    exact_mod_cast (by omega : (K : ℕ) ≠ 0)
  have huniform : (∑ k ∈ Finset.range K, 1 / (K : ℚ)) = 1 := by
    rw [Finset.sum_const, Finset.card_range, nsmul_eq_mul]
    field_simp
  constructor
  · intro rand p m s hok
    have h0 : ¬(K : ℤ) = 0 := by omega
    have hneg : ¬(K : ℤ) < 0 := by omega
    rw [initParameters, if_neg h0, if_neg hneg] at hok
    have hp : p = fun _ => 1 / ((K : ℤ) : ℚ) := by
      injection hok with h
      exact (congrArg Prod.fst h).symm
    constructor
    · intro k
      rw [hp]
      push_cast
      rfl
    · have : ∀ k, p k = 1 / (K : ℚ) := by
        intro k
        rw [hp]
        push_cast
        rfl
      calc (∑ k ∈ Finset.range K, p k)
          = ∑ k ∈ Finset.range K, 1 / (K : ℚ) :=
            Finset.sum_congr rfl fun k _ => this k
        _ = 1 := huniform
  · intro mu cov fuel
    have hinit : piInv K (initState (fun _ => 1 / (K : ℚ)) mu cov) := by
      constructor
      · intro k _
        show 0 < 1 / (K : ℚ)
        positivity
      · exact huniform
    exact (piInv_loop log pdf data N K D threshold hpdf hK hN fuel
      (initState (fun _ => 1 / (K : ℚ)) mu cov) hinit).2

/-- C8 witness: a concrete positive-density one-component run; after two
iterations the mixing weights still sum to `1`. -/
theorem C8_witness :
    (∑ k ∈ Finset.range 1,
      (em_loop (fun _ => 0) (fun _ _ _ => 1) (fun _ _ => 0) 1 1 2 1 2
        (initState (fun _ => 1 / ((1 : ℕ) : ℚ)) (fun _ _ => 0)
          (fun _ _ _ => 0))).1.pi k) = 1 :=
  (C8_theorem (fun _ => 0) (fun _ _ _ => 1) (fun _ _ => 0) 1 1 2 1
    (fun _ _ _ => one_pos) (le_refl 1) (le_refl 1)).2
    (fun _ _ => 0) (fun _ _ _ => 0) 2

section MinLen

variable (log : ℚ → ℚ) (pdf : Pdf) (data : ℕ → ℕ → ℚ) (N K D : ℕ)
variable (threshold : ℚ)

/-- One loop-body execution preserves the counting invariant `lenInv`. -/
theorem lenInv_iteration (s : EmState) (hs : lenInv s) :
    lenInv (em_iteration log pdf data N K D threshold s).1 := by
  obtain ⟨pi, mu, cov, prev, c, l, it⟩ := s
  cases prev with
  | none =>
      intro p hp
      simp [em_iteration]
  | some p0 =>
      have hc : c + 1 ≤ l.length := hs p0 rfl
      simp only [em_iteration]
      split
      · intro p hp
        simp only [List.length_append, List.length_singleton]
        omega
      · intro p hp
        simp only [List.length_append, List.length_singleton]
        omega

/-- If a loop-body execution fires the early stop from a state satisfying
`lenInv`, the resulting trajectory already holds at least four entries. -/
theorem em_iteration_stop_len (s : EmState) (hs : lenInv s)
    (hstop : (em_iteration log pdf data N K D threshold s).2 = true) :
    4 ≤ (em_iteration log pdf data N K D threshold s).1.aic_list.length := by
  obtain ⟨pi, mu, cov, prev, c, l, it⟩ := s
  cases prev with
  | none => simp [em_iteration] at hstop
  | some p0 =>
      have hc : c + 1 ≤ l.length := hs p0 rfl
      simp only [em_iteration] at hstop ⊢
      split at hstop <;> rename_i hcond
      · rw [if_pos hcond]
        simp only [decide_eq_true_eq] at hstop
        simp only [List.length_append, List.length_singleton]
        omega
      · simp at hstop

/-- If the loop fires the early stop, the final trajectory holds at least
four entries. -/
theorem em_loop_stop_len (fuel : ℕ) :
    ∀ s : EmState, lenInv s →
      (em_loop log pdf data N K D threshold fuel s).2 = true →
        4 ≤ (em_loop log pdf data N K D threshold fuel s).1.aic_list.length := by
  induction fuel with
  | zero => intro s _ hstop; simp [em_loop] at hstop
  | succ m ih =>
      intro s hs hstop
      have hinv := lenInv_iteration log pdf data N K D threshold s hs
      rcases hit : em_iteration log pdf data N K D threshold s with ⟨s', b⟩
      rw [hit] at hinv
      cases b with
      | true =>
          simp only [em_loop, hit] at hstop ⊢
          have h4 := em_iteration_stop_len log pdf data N K D threshold s hs
            (by rw [hit])
          rw [hit] at h4
          exact h4
      | false =>
          simp only [em_loop, hit] at hstop ⊢
          exact ih s' hinv hstop

end MinLen

/-- C9: whenever the early convergence stop fires, at least four
iterations have executed — the returned AIC trajectory has length ≥ 4:
the first iteration's comparison against the infinite initial
`previous_aic` always takes the reset branch, and three further
consecutive sub-threshold deltas are needed before the early return. -/
theorem C9_theorem (log : ℚ → ℚ) (pdf : Pdf) (data : ℕ → ℕ → ℚ)
    (N K D max_iter : ℕ) (threshold : ℚ) (pi : ℕ → ℚ)
    (mu : ℕ → ℕ → ℚ) (cov : ℕ → ℕ → ℕ → ℚ)
    (h : (em_loop log pdf data N K D threshold max_iter
      (initState pi mu cov)).2 = true) :
    4 ≤ (run_em_algorithm log pdf data N K D max_iter threshold
      pi mu cov).length := by
  have hinv : lenInv (initState pi mu cov) := by
    intro p hp
    simp [initState] at hp
  exact em_loop_stop_len log pdf data N K D threshold max_iter
    (initState pi mu cov) hinv h

/-- C9 witness: the constant-density run stalls immediately (`Δ = 0 < 1`
from iteration 1 on), the early stop fires within the budget of 10, and
the trajectory indeed has at least 4 entries. -/
theorem C9_witness :
    4 ≤ (run_em_algorithm (fun _ => 0) (fun _ _ _ => 1) (fun _ _ => 0)
      1 1 2 10 1 (fun _ => 1) (fun _ _ => 0) (fun _ _ _ => 0)).length :=
  C9_theorem (fun _ => 0) (fun _ _ _ => 1) (fun _ _ => 0) 1 1 2 10 1
    (fun _ => 1) (fun _ _ => 0) (fun _ _ _ => 0)
    (by norm_num [em_loop, em_iteration, expectation_step,
      maximization_step, compute_aic, rowSum, initState,
      Finset.sum_range_succ])

end GMM
